import Mathlib

/-!
Verification of the realtime extent allocator in fs/xfs/xfs_rtalloc.c.

The realtime bitmap is modelled as a function from rtx number to Bool,
with true meaning free, following the on-disk convention 1 = free.
The summary file is modelled as a function from level and bitmap block
number to an integer counter.  Machine integers are modelled as Nat,
with explicit truncation modulo 2 ^ 64 where the source arithmetic can
wrap.  Fallible subroutines return Except values.

The bitmap and summary codec primitives called by this file, namely
xfs_rtfind_back, xfs_rtfind_forw, xfs_rtcheck_range, xfs_rtmodify_range,
xfs_rtget_summary and xfs_rtmodify_summary, live in xfs_rtbitmap.c,
which is not part of this tree.  They are modelled from the spec where
noted, as pure operations on the bitmap and summary state.  Loops of
the source are rendered as structurally recursive functions on an
explicit iteration bound that matches the loop range of the source.
-/

namespace RtAlloc

/-- The floor base-two logarithm as a structural recursion on a fuel
bound, so that concrete instances evaluate; with fuel at least n it
agrees with Nat.log2, see log2floor_eq. -/
def log2Go : Nat → Nat → Nat
  | 0, _ => 0
  | fuel + 1, n => if n ≥ 2 then log2Go fuel (n / 2) + 1 else 0

/-- The floor base-two logarithm, 0 at 0. -/
def log2floor (n : Nat) : Nat :=
  log2Go n n

/-- With enough fuel the structural logarithm is Nat.log2. -/
lemma log2Go_eq (fuel : Nat) : ∀ n, n ≤ fuel → log2Go fuel n = Nat.log2 n := by
  induction fuel with
  | zero =>
      intro n hn
      have hz : n = 0 := by omega
      subst hz
      simp [log2Go, Nat.log2]
  | succ f ih =>
      intro n hn
      rw [log2Go, Nat.log2]
      by_cases h2 : n ≥ 2
      · rw [if_pos h2, if_pos h2, ih (n / 2) (by omega)]
      · rw [if_neg h2, if_neg h2]

/-- The structural floor base-two logarithm is Nat.log2. -/
lemma log2floor_eq (n : Nat) : log2floor n = Nat.log2 n :=
  log2Go_eq n n (Nat.le_refl n)

/-- The source xfs_highbit64: index of the highest set bit of the word,
or -1 when the word is zero. -/
def xfs_highbit64 (n : Nat) : Int :=
  if n = 0 then -1 else (log2floor n : Int)

/-- The source xfs_highbit32, which agrees with xfs_highbit64 on the
32-bit values it is applied to. -/
def xfs_highbit32 (n : Nat) : Int :=
  xfs_highbit64 n

/-- Modelled from the spec: xfs_rtx_to_rbmblock maps an rtx number to the
bitmap block holding its bit; bits_per_bmblock is 2 ^ blkbitlog where
blkbitlog is m_blkbit_log. -/
def rtxToRbmblock (blkbitlog rtx : Nat) : Nat :=
  rtx / 2 ^ blkbitlog

/-- Modelled from the spec: xfs_rbmblock_to_rtx maps a bitmap block number
to the first rtx covered by that block. -/
def rbmblockToRtx (blkbitlog b : Nat) : Nat :=
  b * 2 ^ blkbitlog

/-- Modelled from the spec: the backward walk of xfs_rtfind_back.  From
position s, keep stepping to lower positions while the bit below the
current position still matches val; stops at position 0. -/
def rtfindBackGo (bmp : Nat → Bool) (val : Bool) : Nat → Nat
  | 0 => 0
  | s + 1 => if bmp s = val then rtfindBackGo bmp val s else s + 1

/-- Modelled from the spec: xfs_rtfind_back returns the first rtx of the
maximal run of bits matching the state of the bit at start. -/
def xfs_rtfind_back (bmp : Nat → Bool) (start : Nat) : Nat :=
  rtfindBackGo bmp (bmp start) start

/-- Modelled from the spec: the forward walk of xfs_rtfind_forw, as a
structural recursion on the remaining distance to the limit.  From
position pos with fuel f, keep stepping up while the next bit matches
val; with fuel equal to limit minus pos this stops at the limit. -/
def rtfindForwGo (bmp : Nat → Bool) (val : Bool) : Nat → Nat → Nat
  | 0, pos => pos
  | f + 1, pos => if bmp (pos + 1) = val then rtfindForwGo bmp val f (pos + 1) else pos

/-- Modelled from the spec: xfs_rtfind_forw returns the last rtx, no
larger than limit, of the maximal run of bits matching the state of the
bit at start. -/
def xfs_rtfind_forw (bmp : Nat → Bool) (start limit : Nat) : Nat :=
  rtfindForwGo bmp (bmp start) (limit - start) start

/-- Modelled from the spec: xfs_rtcheck_range scans len bits from start;
if all of them equal val it returns start plus len and true, otherwise
it returns the first differing rtx and false. -/
def xfs_rtcheck_range (bmp : Nat → Bool) (start len : Nat) (val : Bool) : Nat × Bool :=
  match len with
  | 0 => (start, true)
  | l + 1 =>
      if bmp start = val then xfs_rtcheck_range bmp (start + 1) l val
      else (start, false)

/-- Modelled from the spec: xfs_rtmodify_range writes val to len
consecutive bits starting at start. -/
def xfs_rtmodify_range (bmp : Nat → Bool) (start len : Nat) (val : Bool) : Nat → Bool :=
  fun k => if start ≤ k ∧ k < start + len then val else bmp k

/-- Modelled from the spec: xfs_rtmodify_summary adds delta to the summary
counter of the given level and bitmap block. -/
def xfs_rtmodify_summary (s : Nat → Nat → Int) (lvl b : Nat) (delta : Int) :
    Nat → Nat → Int :=
  fun l2 b2 => if l2 = lvl ∧ b2 = b then s l2 b2 + delta else s l2 b2

/-- The bitmap and summary state operated on by the allocator. -/
structure RtSt where
  bmp : Nat → Bool
  summary : Nat → Nat → Int

/-- Translation of xfs_rtalloc_align_minmax: round ramaxlen down and
raminlen up to multiples of the product factor; if that inverts the
pair, drop the product factor instead and leave both lengths alone.
Returns the new (raminlen, ramaxlen, prod) triple. -/
def xfs_rtalloc_align_minmax (raminlen ramaxlen prodf : Nat) : Nat × Nat × Nat :=
  let slackmax := ramaxlen % prodf
  let newmaxlen := if slackmax ≠ 0 then ramaxlen - slackmax else ramaxlen
  let slackmin := raminlen % prodf
  let newminlen := if slackmin ≠ 0 then raminlen + (prodf - slackmin) else raminlen
  if newmaxlen < newminlen then (raminlen, ramaxlen, 1)
  else (newminlen, newmaxlen, prodf)

/-- Claim C10: when aligning raminlen up and ramaxlen down to multiples of
prod would yield maxlen below minlen, xfs_rtalloc_align_minmax sets prod
to 1 and leaves the lengths exactly as passed in; otherwise it stores the
aligned pair, which satisfies minlen at most maxlen with both multiples
of prod. -/
theorem C10_align_minmax (raminlen ramaxlen prodf : Nat) (hp : 0 < prodf) :
    (ramaxlen - ramaxlen % prodf < raminlen + (prodf - raminlen % prodf) % prodf →
      xfs_rtalloc_align_minmax raminlen ramaxlen prodf = (raminlen, ramaxlen, 1)) ∧
    (raminlen + (prodf - raminlen % prodf) % prodf ≤ ramaxlen - ramaxlen % prodf →
      xfs_rtalloc_align_minmax raminlen ramaxlen prodf =
        (raminlen + (prodf - raminlen % prodf) % prodf,
         ramaxlen - ramaxlen % prodf, prodf) ∧
      (raminlen + (prodf - raminlen % prodf) % prodf) % prodf = 0 ∧
      (ramaxlen - ramaxlen % prodf) % prodf = 0) := by
  have hmod : raminlen % prodf < prodf := Nat.mod_lt _ hp
  have hmaxeq : (if ramaxlen % prodf ≠ 0 then ramaxlen - ramaxlen % prodf else ramaxlen) =
      ramaxlen - ramaxlen % prodf := by
    rcases Nat.eq_zero_or_pos (ramaxlen % prodf) with h0 | hpos
    · rw [if_neg (by omega)]
      omega
    · rw [if_pos (by omega)]
  have hminslack : (prodf - raminlen % prodf) % prodf =
      if raminlen % prodf ≠ 0 then prodf - raminlen % prodf else 0 := by
    rcases Nat.eq_zero_or_pos (raminlen % prodf) with h0 | hpos
    · rw [if_neg (by omega), h0, Nat.sub_zero, Nat.mod_self]
    · rw [if_pos (by omega), Nat.mod_eq_of_lt (by omega)]
  have hmineq : (if raminlen % prodf ≠ 0 then raminlen + (prodf - raminlen % prodf)
        else raminlen) = raminlen + (prodf - raminlen % prodf) % prodf := by
    rw [hminslack]
    rcases Nat.eq_zero_or_pos (raminlen % prodf) with h0 | hpos
    · rw [if_neg (by omega), if_neg (by omega)]
      omega
    · rw [if_pos (by omega), if_pos (by omega)]
  constructor
  · intro hlt
    unfold xfs_rtalloc_align_minmax
    simp only [hmaxeq, hmineq]
    rw [if_pos hlt]
  · intro hle
    unfold xfs_rtalloc_align_minmax
    simp only [hmaxeq, hmineq]
    rw [if_neg (by omega)]
    refine ⟨rfl, ?_, ?_⟩
    · rw [hminslack]
      rcases Nat.eq_zero_or_pos (raminlen % prodf) with h0 | hpos
      · rw [if_neg (by omega)]
        simpa using h0
      · rw [if_pos (by omega)]
        have hd := Nat.div_add_mod raminlen prodf
        have hrw : raminlen + (prodf - raminlen % prodf) =
            prodf * (raminlen / prodf + 1) := by
          rw [Nat.mul_add, Nat.mul_one]
          omega
        rw [hrw, Nat.mul_mod_right]
    · have hd := Nat.div_add_mod ramaxlen prodf
      have hrw : ramaxlen - ramaxlen % prodf = prodf * (ramaxlen / prodf) := by
        omega
      rw [hrw, Nat.mul_mod_right]

/-- Witness for C10 at a concrete input. -/
theorem C10_align_minmax_witness :
    (0 < 4) ∧
    ((12 - 12 % 4 < 5 + (4 - 5 % 4) % 4 →
      xfs_rtalloc_align_minmax 5 12 4 = (5, 12, 1)) ∧
    (5 + (4 - 5 % 4) % 4 ≤ 12 - 12 % 4 →
      xfs_rtalloc_align_minmax 5 12 4 =
        (5 + (4 - 5 % 4) % 4, 12 - 12 % 4, 4) ∧
      (5 + (4 - 5 % 4) % 4) % 4 = 0 ∧
      (12 - 12 % 4) % 4 = 0)) :=
  ⟨by decide, C10_align_minmax 5 12 4 (by decide)⟩

/-- The backward walk stays at or below its starting position. -/
lemma rtfindBackGo_le (bmp : Nat → Bool) (val : Bool) (s : Nat) :
    rtfindBackGo bmp val s ≤ s := by
  induction s with
  | zero => simp [rtfindBackGo]
  | succ n ih =>
      simp only [rtfindBackGo]
      by_cases h : bmp n = val
      · rw [if_pos h]
        exact Nat.le_trans ih (Nat.le_succ n)
      · rw [if_neg h]

/-- Every bit from the result of the backward walk up to just below the
starting position matches val, and the bit just below the result, when
the result is positive, does not. -/
lemma rtfindBackGo_spec (bmp : Nat → Bool) (val : Bool) (s : Nat) :
    (∀ k, rtfindBackGo bmp val s ≤ k → k < s → bmp k = val) ∧
    (rtfindBackGo bmp val s = 0 ∨ bmp (rtfindBackGo bmp val s - 1) ≠ val) := by
  induction s with
  | zero => simp [rtfindBackGo]
  | succ n ih =>
      simp only [rtfindBackGo]
      by_cases h : bmp n = val
      · rw [if_pos h]
        obtain ⟨ih1, ih2⟩ := ih
        refine ⟨?_, ih2⟩
        intro k hk1 hk2
        rcases Nat.lt_or_ge k n with hlt | hge
        · exact ih1 k hk1 hlt
        · have hkn : k = n := by omega
          rw [hkn]
          exact h
      · rw [if_neg h]
        refine ⟨?_, Or.inr ?_⟩
        · intro k hk1 hk2
          omega
        · simpa using h

/-- The forward walk stays at or above its starting position. -/
lemma rtfindForwGo_ge (bmp : Nat → Bool) (val : Bool) (f : Nat) :
    ∀ pos, pos ≤ rtfindForwGo bmp val f pos := by
  induction f with
  | zero => intro pos; simp [rtfindForwGo]
  | succ n ih =>
      intro pos
      simp only [rtfindForwGo]
      by_cases h : bmp (pos + 1) = val
      · rw [if_pos h]
        exact Nat.le_trans (Nat.le_succ pos) (ih (pos + 1))
      · rw [if_neg h]

/-- The forward walk with fuel f stops at or below pos plus f, every bit
strictly between pos and the stopping point matches val, and either the
fuel was exhausted or the bit just above the stopping point does not
match val. -/
lemma rtfindForwGo_spec (bmp : Nat → Bool) (val : Bool) (f : Nat) :
    ∀ pos, rtfindForwGo bmp val f pos ≤ pos + f ∧
      (∀ k, pos < k → k ≤ rtfindForwGo bmp val f pos → bmp k = val) ∧
      (rtfindForwGo bmp val f pos = pos + f ∨
        bmp (rtfindForwGo bmp val f pos + 1) ≠ val) := by
  induction f with
  | zero =>
      intro pos
      simp only [rtfindForwGo]
      refine ⟨by omega, ?_, Or.inl (by omega)⟩
      intro k h1 h2
      omega
  | succ n ih =>
      intro pos
      simp only [rtfindForwGo]
      by_cases h : bmp (pos + 1) = val
      · rw [if_pos h]
        obtain ⟨ih1, ih2, ih3⟩ := ih (pos + 1)
        refine ⟨by omega, ?_, ?_⟩
        · intro k hk1 hk2
          rcases Nat.lt_or_ge (pos + 1) k with hlt | hge
          · exact ih2 k hlt hk2
          · have hkp : k = pos + 1 := by omega
            rw [hkp]
            exact h
        · rcases ih3 with h3 | h3
          · exact Or.inl (by omega)
          · exact Or.inr h3
      · rw [if_neg h]
        refine ⟨by omega, ?_, Or.inr ?_⟩
        · intro k hk1 hk2
          omega
        · simpa using h

/-- On a positive word the source xfs_highbit64 is the floor base-two
logarithm. -/
lemma xfs_highbit64_toNat (n : Nat) (h : n ≠ 0) :
    (xfs_highbit64 n).toNat = Nat.log2 n := by
  unfold xfs_highbit64
  rw [if_neg h, Int.toNat_natCast, log2floor_eq]

/-- Translation of xfs_rtallocate_range: mark the extent of len rtx
starting at start allocated.  The enclosing maximal free run is located
with the find-back and find-forw walks, the summary count of the old run
is removed, counts for the left and right remnants are added when they
exist, and the bitmap bits of the extent are cleared.  rextents is
rtg_extents and blkbitlog is m_blkbit_log. -/
def xfs_rtallocate_range (rextents blkbitlog : Nat) (st : RtSt) (start len : Nat) : RtSt :=
  let e := start + len - 1
  let preblock := xfs_rtfind_back st.bmp start
  let postblock := xfs_rtfind_forw st.bmp e (rextents - 1)
  let s1 := xfs_rtmodify_summary st.summary (xfs_highbit64 (postblock + 1 - preblock)).toNat
      (rtxToRbmblock blkbitlog preblock) (-1)
  let s2 := if preblock < start then
      xfs_rtmodify_summary s1 (xfs_highbit64 (start - preblock)).toNat
        (rtxToRbmblock blkbitlog preblock) 1
    else s1
  let s3 := if e < postblock then
      xfs_rtmodify_summary s2 (xfs_highbit64 (postblock - e)).toNat
        (rtxToRbmblock blkbitlog (e + 1)) 1
    else s2
  { bmp := xfs_rtmodify_range st.bmp start len false, summary := s3 }

/-- Claim C1: for a call to xfs_rtallocate_range whose precondition holds,
with the range of len rtx at start entirely free, the operation computes
P, the first rtx of the maximal free run containing start, and Q, one
past its last rtx with the run capped at rextents, removes one summary
count at level log2 of Q - P in the bitmap block of P, adds one count at
level log2 of start - P in the bitmap block of P when P is below start,
adds one count at level log2 of Q - (start + len) in the bitmap block of
start + len when Q is above start + len, and clears the len bitmap bits
starting at start. -/
theorem C1_rtallocate_range (rextents blkbitlog : Nat) (st : RtSt) (start len : Nat)
    (hlen : 0 < len) (hend : start + len ≤ rextents)
    (hfree : ∀ k, k < len → st.bmp (start + k) = true) :
    ∃ P Q : Nat,
      (P ≤ start ∧ (∀ k, P ≤ k → k ≤ start → st.bmp k = true) ∧
        (P = 0 ∨ st.bmp (P - 1) = false)) ∧
      (start + len ≤ Q ∧ Q ≤ rextents ∧ (∀ k, start ≤ k → k < Q → st.bmp k = true) ∧
        (Q = rextents ∨ st.bmp Q = false)) ∧
      (xfs_rtallocate_range rextents blkbitlog st start len).summary =
        (let s1 := xfs_rtmodify_summary st.summary (Nat.log2 (Q - P))
            (P / 2 ^ blkbitlog) (-1)
         let s2 := if P < start then
            xfs_rtmodify_summary s1 (Nat.log2 (start - P)) (P / 2 ^ blkbitlog) 1
          else s1
         if start + len < Q then
            xfs_rtmodify_summary s2 (Nat.log2 (Q - (start + len)))
              ((start + len) / 2 ^ blkbitlog) 1
          else s2) ∧
      (∀ k, (xfs_rtallocate_range rextents blkbitlog st start len).bmp k =
        if start ≤ k ∧ k < start + len then false else st.bmp k) := by
  have hstart : st.bmp start = true := by
    have := hfree 0 hlen
    simpa using this
  have he : st.bmp (start + len - 1) = true := by
    have := hfree (len - 1) (by omega)
    have harg : start + (len - 1) = start + len - 1 := by omega
    rwa [harg] at this
  have hPeq : xfs_rtfind_back st.bmp start = rtfindBackGo st.bmp true start := by
    rw [xfs_rtfind_back, hstart]
  have hpbeq : xfs_rtfind_forw st.bmp (start + len - 1) (rextents - 1) =
      rtfindForwGo st.bmp true (rextents - 1 - (start + len - 1)) (start + len - 1) := by
    rw [xfs_rtfind_forw, he]
  have hle := rtfindBackGo_le st.bmp true start
  obtain ⟨hball, hbbound⟩ := rtfindBackGo_spec st.bmp true start
  have hge := rtfindForwGo_ge st.bmp true (rextents - 1 - (start + len - 1))
    (start + len - 1)
  obtain ⟨hub, hfall, hfbound⟩ := rtfindForwGo_spec st.bmp true
    (rextents - 1 - (start + len - 1)) (start + len - 1)
  have hcap : start + len - 1 + (rextents - 1 - (start + len - 1)) = rextents - 1 := by
    omega
  rw [hcap] at hub hfbound
  set P := rtfindBackGo st.bmp true start with hPdef
  set pb := rtfindForwGo st.bmp true (rextents - 1 - (start + len - 1))
    (start + len - 1) with hpbdef
  refine ⟨P, pb + 1, ?_, ?_, ?_, ?_⟩
  · -- characterization of P from the backward walk
    refine ⟨hle, ?_, ?_⟩
    swap
    · rcases hbbound with h | h
      · exact Or.inl h
      · exact Or.inr (by simpa using h)
    intro k hk1 hk2
    rcases Nat.lt_or_ge k start with hlt | hge2
    · exact hball k hk1 hlt
    · have hks : k = start := by omega
      rw [hks]
      exact hstart
  · -- characterization of Q from the forward walk
    refine ⟨by omega, by omega, ?_, ?_⟩
    · intro k hk1 hk2
      rcases Nat.lt_or_ge (start + len - 1) k with hlt | hge2
      · exact hfall k hlt (by omega)
      · have := hfree (k - start) (by omega)
        have harg : start + (k - start) = k := by omega
        rwa [harg] at this
    · rcases hfbound with h3 | h3
      · exact Or.inl (by omega)
      · refine Or.inr ?_
        simpa using h3
  · -- the summary after the call
    have hQP : pb + 1 - P ≠ 0 := by omega
    have hSP : P < start → start - P ≠ 0 := by omega
    have hEQ : start + len - 1 < pb → pb - (start + len - 1) ≠ 0 := by omega
    simp only [xfs_rtallocate_range, hPeq, hpbeq, rtxToRbmblock]
    rw [xfs_highbit64_toNat _ hQP]
    by_cases hps : P < start
    · rw [if_pos hps, if_pos hps, xfs_highbit64_toNat _ (hSP hps)]
      by_cases hqe : start + len - 1 < pb
      · rw [if_pos hqe, if_pos (show start + len < pb + 1 by omega),
          xfs_highbit64_toNat _ (hEQ hqe)]
        have harg2 : pb - (start + len - 1) = pb + 1 - (start + len) := by omega
        have harg3 : start + len - 1 + 1 = start + len := by omega
        rw [harg2, harg3]
      · rw [if_neg hqe, if_neg (show ¬ start + len < pb + 1 by omega)]
    · rw [if_neg hps, if_neg hps]
      by_cases hqe : start + len - 1 < pb
      · rw [if_pos hqe, if_pos (show start + len < pb + 1 by omega),
          xfs_highbit64_toNat _ (hEQ hqe)]
        have harg2 : pb - (start + len - 1) = pb + 1 - (start + len) := by omega
        have harg3 : start + len - 1 + 1 = start + len := by omega
        rw [harg2, harg3]
      · rw [if_neg hqe, if_neg (show ¬ start + len < pb + 1 by omega)]
  · -- the bitmap after the call
    intro k
    simp [xfs_rtallocate_range, xfs_rtmodify_range]

/-- Witness for C1 at a concrete input: a fully free volume of 8 rtx,
allocating 3 rtx at rtx 2. -/
theorem C1_rtallocate_range_witness :
    ((0 : Nat) < 3 ∧ 2 + 3 ≤ 8 ∧
      (∀ k, k < 3 → (RtSt.mk (fun _ => true) (fun _ _ => 0)).bmp (2 + k) = true)) ∧
    (∃ P Q : Nat,
      (P ≤ 2 ∧ (∀ k, P ≤ k → k ≤ 2 → (RtSt.mk (fun _ => true) (fun _ _ => 0)).bmp k = true) ∧
        (P = 0 ∨ (RtSt.mk (fun _ => true) (fun _ _ => 0)).bmp (P - 1) = false)) ∧
      (2 + 3 ≤ Q ∧ Q ≤ 8 ∧
        (∀ k, 2 ≤ k → k < Q → (RtSt.mk (fun _ => true) (fun _ _ => 0)).bmp k = true) ∧
        (Q = 8 ∨ (RtSt.mk (fun _ => true) (fun _ _ => 0)).bmp Q = false)) ∧
      (xfs_rtallocate_range 8 2 (RtSt.mk (fun _ => true) (fun _ _ => 0)) 2 3).summary =
        (let s1 := xfs_rtmodify_summary (fun _ _ => 0) (Nat.log2 (Q - P))
            (P / 2 ^ 2) (-1)
         let s2 := if P < 2 then
            xfs_rtmodify_summary s1 (Nat.log2 (2 - P)) (P / 2 ^ 2) 1
          else s1
         if 2 + 3 < Q then
            xfs_rtmodify_summary s2 (Nat.log2 (Q - (2 + 3))) ((2 + 3) / 2 ^ 2) 1
          else s2) ∧
      (∀ k, (xfs_rtallocate_range 8 2 (RtSt.mk (fun _ => true) (fun _ _ => 0)) 2 3).bmp k =
        if 2 ≤ k ∧ k < 2 + 3 then false else (RtSt.mk (fun _ => true) (fun _ _ => 0)).bmp k)) :=
  ⟨⟨by decide, by decide, by intro k hk; rfl⟩,
    C1_rtallocate_range 8 2 (RtSt.mk (fun _ => true) (fun _ _ => 0)) 2 3
      (by decide) (by decide) (by intro k hk; rfl)⟩

/-- The position returned by the range check is at or after its start. -/
lemma xfs_rtcheck_range_fst_ge (bmp : Nat → Bool) (val : Bool) (len : Nat) :
    ∀ start, start ≤ (xfs_rtcheck_range bmp start len val).1 := by
  induction len with
  | zero => intro start; simp [xfs_rtcheck_range]
  | succ n ih =>
      intro start
      simp only [xfs_rtcheck_range]
      by_cases h : bmp start = val
      · rw [if_pos h]
        exact Nat.le_trans (Nat.le_succ start) (ih (start + 1))
      · rw [if_neg h]

/-- Characterization of the range check: on a fully matching range it
returns one past the range and true; on a range whose first mismatch is
at offset d it returns the mismatch position and false. -/
lemma xfs_rtcheck_range_spec (bmp : Nat → Bool) (val : Bool) (len : Nat) :
    ∀ start,
      ((∀ k, k < len → bmp (start + k) = val) →
        xfs_rtcheck_range bmp start len val = (start + len, true)) ∧
      (∀ d, d < len → bmp (start + d) ≠ val → (∀ k, k < d → bmp (start + k) = val) →
        xfs_rtcheck_range bmp start len val = (start + d, false)) := by
  induction len with
  | zero =>
      intro start
      refine ⟨fun _ => by simp [xfs_rtcheck_range], ?_⟩
      intro d hd
      omega
  | succ n ih =>
      intro start
      constructor
      · intro hall
        have h0 : bmp start = val := by simpa using hall 0 (by omega)
        simp only [xfs_rtcheck_range, if_pos h0]
        have hrec := (ih (start + 1)).1 (fun k hk => by
          have := hall (k + 1) (by omega)
          rwa [show start + (k + 1) = start + 1 + k by omega] at this)
        rw [hrec]
        have harith : start + 1 + n = start + (n + 1) := by omega
        rw [harith]
      · intro d hd hne hbelow
        rcases Nat.eq_zero_or_pos d with h0 | hpos
        · subst h0
          have hb : bmp start ≠ val := by simpa using hne
          simp [xfs_rtcheck_range, if_neg hb]
        · have h0 : bmp start = val := by simpa using hbelow 0 hpos
          simp only [xfs_rtcheck_range, if_pos h0]
          have hrec := (ih (start + 1)).2 (d - 1) (by omega)
            (by rwa [show start + 1 + (d - 1) = start + d by omega])
            (fun k hk => by
              have := hbelow (k + 1) (by omega)
              rwa [show start + (k + 1) = start + 1 + k by omega] at this)
          rw [hrec]
          have harith : start + 1 + (d - 1) = start + d := by omega
          rw [harith]

/-- Translation of xfs_rtalloc_align_len: reduce rtxlen to a multiple of
the product factor. -/
def xfs_rtalloc_align_len (rtxlen prodf : Nat) : Nat :=
  if 1 < prodf then rtxlen - rtxlen % prodf else rtxlen

/-- Translation of xfs_rtallocate_clamp_len: clamp rtxlen so that the
allocation does not run off the end of the rt volume, then align the
result down to the product factor. -/
def xfs_rtallocate_clamp_len (rextents startrtx rtxlen prodf : Nat) : Nat :=
  xfs_rtalloc_align_len (min rextents (startrtx + rtxlen) - startrtx) prodf

/-- Error values returned by the allocation paths. -/
inductive AllocErr where
  | ENOSPC
  | EOTHER (code : Nat)
deriving DecidableEq, Repr

/-- The spec description of the clamped maximum length of an exact
allocation: maxlen limited so that start plus maxlen does not exceed
rextents, rounded down to a multiple of prod. -/
def clampedMax (rextents start maxlen prodf : Nat) : Nat :=
  min rextents (start + maxlen) - start -
    (min rextents (start + maxlen) - start) % prodf

/-- For a positive product factor the source align-len agrees with
rounding down to a multiple of the factor. -/
lemma xfs_rtalloc_align_len_eq (rtxlen prodf : Nat) (hp : 0 < prodf) :
    xfs_rtalloc_align_len rtxlen prodf = rtxlen - rtxlen % prodf := by
  unfold xfs_rtalloc_align_len
  rcases Nat.lt_or_ge 1 prodf with h | h
  · rw [if_pos h]
  · have h1 : prodf = 1 := by omega
    subst h1
    rw [if_neg (by omega)]
    omega

/-- For a positive product factor the source clamp-len agrees with the
spec description of the clamped maximum length. -/
lemma xfs_rtallocate_clamp_len_eq (rextents startrtx rtxlen prodf : Nat) (hp : 0 < prodf) :
    xfs_rtallocate_clamp_len rextents startrtx rtxlen prodf =
      clampedMax rextents startrtx rtxlen prodf := by
  unfold xfs_rtallocate_clamp_len clampedMax
  rw [xfs_rtalloc_align_len_eq _ _ hp]

/-- Translation of xfs_rtallocate_extent_exact: allocate at exactly start,
taking the clamped maximum length when that whole range is free,
otherwise the free prefix aligned down to the product factor when that
still reaches minlen. -/
def xfs_rtallocate_extent_exact (rextents : Nat) (bmp : Nat → Bool)
    (start minlen maxlen prodf : Nat) : Except AllocErr (Nat × Nat) :=
  let scanlen := xfs_rtallocate_clamp_len rextents start maxlen prodf
  if scanlen < minlen then .error .ENOSPC
  else
    let nf := xfs_rtcheck_range bmp start scanlen true
    if nf.2 then .ok (start, scanlen)
    else
      let alloclen := nf.1 - start
      if alloclen < minlen then .error .ENOSPC
      else
        let alloclen2 := xfs_rtalloc_align_len alloclen prodf
        if alloclen2 < minlen then .error .ENOSPC
        else .ok (start, alloclen2)

/-- Claim C2: whenever xfs_rtallocate_extent_exact succeeds, the returned
start equals the requested start; the returned length is the clamped
maxlen C when that whole range is free, and otherwise the free prefix d
rounded down to a multiple of prod provided that is at least minlen; it
fails ENOSPC when the clamped maxlen is below minlen or the rounded free
prefix is below minlen. -/
theorem C2_extent_exact (rextents : Nat) (bmp : Nat → Bool)
    (start minlen maxlen prodf : Nat) (hp : 0 < prodf) :
    (∀ r, xfs_rtallocate_extent_exact rextents bmp start minlen maxlen prodf = .ok r →
      r.1 = start) ∧
    (clampedMax rextents start maxlen prodf < minlen →
      xfs_rtallocate_extent_exact rextents bmp start minlen maxlen prodf =
        .error .ENOSPC) ∧
    (minlen ≤ clampedMax rextents start maxlen prodf →
      (∀ k, k < clampedMax rextents start maxlen prodf → bmp (start + k) = true) →
      xfs_rtallocate_extent_exact rextents bmp start minlen maxlen prodf =
        .ok (start, clampedMax rextents start maxlen prodf)) ∧
    (∀ d, minlen ≤ clampedMax rextents start maxlen prodf →
      d < clampedMax rextents start maxlen prodf → bmp (start + d) = false →
      (∀ k, k < d → bmp (start + k) = true) →
      (minlen ≤ d - d % prodf →
        xfs_rtallocate_extent_exact rextents bmp start minlen maxlen prodf =
          .ok (start, d - d % prodf)) ∧
      (d - d % prodf < minlen →
        xfs_rtallocate_extent_exact rextents bmp start minlen maxlen prodf =
          .error .ENOSPC)) := by
  have hclamp := xfs_rtallocate_clamp_len_eq rextents start maxlen prodf hp
  refine ⟨?_, ?_, ?_, ?_⟩
  · intro r h
    simp only [xfs_rtallocate_extent_exact] at h
    split_ifs at h with h1 h2 h3 h4
    · injection h with h5
      rw [← h5]
    · injection h with h5
      rw [← h5]
  · intro hlt
    simp only [xfs_rtallocate_extent_exact]
    rw [hclamp, if_pos hlt]
  · intro hmin hall
    simp only [xfs_rtallocate_extent_exact]
    rw [hclamp, if_neg (by omega)]
    have hck := (xfs_rtcheck_range_spec bmp true
      (clampedMax rextents start maxlen prodf) start).1 hall
    rw [hck]
    simp
  · intro d hmin hd hbit hbelow
    have hck := (xfs_rtcheck_range_spec bmp true
      (clampedMax rextents start maxlen prodf) start).2 d hd (by simp [hbit]) hbelow
    have hsnd : ((start + d, false) : Nat × Bool).2 = false := rfl
    have hfst : ((start + d, false) : Nat × Bool).1 = start + d := rfl
    have harith : start + d - start = d := by omega
    constructor
    · intro hok
      simp only [xfs_rtallocate_extent_exact]
      rw [hclamp, if_neg (by omega), hck]
      simp only [hsnd, hfst, harith]
      rw [if_neg (by simp), if_neg (by omega),
        xfs_rtalloc_align_len_eq _ _ hp, if_neg (by omega)]
    · intro herr
      simp only [xfs_rtallocate_extent_exact]
      rw [hclamp, if_neg (by omega), hck]
      simp only [hsnd, hfst, harith]
      rw [if_neg (by simp)]
      by_cases hdm : d < minlen
      · rw [if_pos hdm]
      · rw [if_neg hdm, xfs_rtalloc_align_len_eq _ _ hp, if_pos (by omega)]

/-- Witness for C2 at a concrete input: a fully free volume of 10 rtx,
exact allocation at rtx 2 of up to 5 rtx. -/
theorem C2_extent_exact_witness :
    (0 : Nat) < 1 ∧
    xfs_rtallocate_extent_exact 10 (fun _ => true) 2 1 5 1 =
      .ok (2, clampedMax 10 2 5 1) :=
  ⟨by decide,
    (C2_extent_exact 10 (fun _ => true) 2 1 5 1 (by decide)).2.2.1
      (by decide) (by intro k hk; rfl)⟩

/-- Translation of xfs_rtpick_extent: pick a start rtx for the first
allocation of user data from the sequence number kept in the atime field
of the bitmap inode.  newrtbm is the NEWRTBM inode flag and atime the
stored seconds value; when the flag is unset the sequence number is
taken as 0.  Returns the picked rtx, the new stored seconds value and
the new flag.  The 64-bit multiplication is truncated modulo 2 ^ 64 as
in the source. -/
def xfs_rtpick_extent (rextents len : Nat) (newrtbm : Bool) (atime : Nat) :
    Nat × Nat × Bool :=
  let seq := if newrtbm then atime else 0
  let b :=
    if seq = 0 then 0
    else
      let log2v := Nat.log2 seq
      let resid := seq - 2 ^ log2v
      let b0 := rextents * (2 * resid + 1) % 2 ^ 64 / 2 ^ (log2v + 1)
      let b1 := if rextents ≤ b0 then b0 % rextents else b0
      if rextents < b1 + len then rextents - len else b1
  (b, seq + 1, true)

/-- Claim C8: xfs_rtpick_extent returns 0 when the sequence counter seq is
0, and otherwise, with L the floor log2 of seq and R the residue
seq - 2 ^ L, returns rextents * (2 R + 1) shifted right by L + 1,
reduced modulo rextents when at least rextents and then clamped so that
the result plus len stays within rextents; in every case the stored
counter is advanced to seq + 1. -/
theorem C8_rtpick_extent (rextents len : Nat) (newrtbm : Bool) (atime : Nat)
    (hr : 0 < rextents) (hlen : len ≤ rextents)
    (hov : rextents * (2 * (atime - 2 ^ Nat.log2 atime) + 1) < 2 ^ 64) :
    (xfs_rtpick_extent rextents len newrtbm atime).2.1 =
      (if newrtbm then atime else 0) + 1 ∧
    (xfs_rtpick_extent rextents len newrtbm atime).2.2 = true ∧
    ((if newrtbm then atime else 0) = 0 →
      (xfs_rtpick_extent rextents len newrtbm atime).1 = 0) ∧
    (∀ seq : Nat, seq = (if newrtbm then atime else 0) → seq ≠ 0 →
      (xfs_rtpick_extent rextents len newrtbm atime).1 =
        (let L := Nat.log2 seq
         let R := seq - 2 ^ L
         let b := rextents * (2 * R + 1) / 2 ^ (L + 1)
         let b2 := if rextents ≤ b then b % rextents else b
         if rextents < b2 + len then rextents - len else b2)) ∧
    (xfs_rtpick_extent rextents len newrtbm atime).1 + len ≤ rextents := by
  cases newrtbm with
  | false =>
      refine ⟨rfl, rfl, fun _ => rfl, ?_, ?_⟩
      · intro seq hseq hne
        simp at hseq
        omega
      · show 0 + len ≤ rextents
        omega
  | true =>
      by_cases h0 : atime = 0
      · subst h0
        refine ⟨rfl, rfl, fun _ => rfl, ?_, ?_⟩
        · intro seq hseq hne
          simp at hseq
          omega
        · show 0 + len ≤ rextents
          omega
      · have hfst : (xfs_rtpick_extent rextents len true atime).1 =
            (let L := Nat.log2 atime
             let R := atime - 2 ^ L
             let b := rextents * (2 * R + 1) / 2 ^ (L + 1)
             let b2 := if rextents ≤ b then b % rextents else b
             if rextents < b2 + len then rextents - len else b2) := by
          simp only [xfs_rtpick_extent, if_true]
          rw [if_neg h0]
          simp only [Nat.mod_eq_of_lt hov]
        have hb2lt : (let L := Nat.log2 atime
             let R := atime - 2 ^ L
             let b := rextents * (2 * R + 1) / 2 ^ (L + 1)
             (if rextents ≤ b then b % rextents else b)) < rextents := by
          have hlow := Nat.log2_self_le h0
          have hhigh := Nat.lt_log2_self (n := atime)
          have hRlt : atime - 2 ^ Nat.log2 atime < 2 ^ Nat.log2 atime := by
            have hpow : 2 ^ (Nat.log2 atime + 1) = 2 ^ Nat.log2 atime * 2 := by
              rw [Nat.pow_succ]
            omega
          have h2R : 2 * (atime - 2 ^ Nat.log2 atime) + 1 < 2 ^ (Nat.log2 atime + 1) := by
            have hpow : 2 ^ (Nat.log2 atime + 1) = 2 ^ Nat.log2 atime * 2 := by
              rw [Nat.pow_succ]
            omega
          have hblt : rextents * (2 * (atime - 2 ^ Nat.log2 atime) + 1) /
              2 ^ (Nat.log2 atime + 1) < rextents := by
            rw [Nat.div_lt_iff_lt_mul (Nat.pos_pow_of_pos _ (by norm_num))]
            exact mul_lt_mul_of_pos_left h2R hr
          by_cases hge : rextents ≤ rextents * (2 * (atime - 2 ^ Nat.log2 atime) + 1) /
              2 ^ (Nat.log2 atime + 1)
          · simp only [if_pos hge]
            exact Nat.mod_lt _ hr
          · simp only [if_neg hge]
            omega
        refine ⟨rfl, rfl, ?_, ?_, ?_⟩
        · intro hseq
          simp at hseq
          omega
        · intro seq hseq hne
          simp at hseq
          subst hseq
          exact hfst
        · rw [hfst]
          simp only []
          by_cases hclamp : rextents <
              (if rextents ≤ rextents * (2 * (atime - 2 ^ Nat.log2 atime) + 1) /
                  2 ^ (Nat.log2 atime + 1) then
                rextents * (2 * (atime - 2 ^ Nat.log2 atime) + 1) /
                  2 ^ (Nat.log2 atime + 1) % rextents
              else rextents * (2 * (atime - 2 ^ Nat.log2 atime) + 1) /
                  2 ^ (Nat.log2 atime + 1)) + len
          · rw [if_pos hclamp]
            omega
          · rw [if_neg hclamp]
            omega

/-- Witness for C8 at a concrete input: 100 rtx, an allocation of 10 rtx,
with the NEWRTBM flag set and sequence number 5. -/
theorem C8_rtpick_extent_witness :
    ((0 : Nat) < 100 ∧ (10 : Nat) ≤ 100 ∧
      100 * (2 * (5 - 2 ^ Nat.log2 5) + 1) < 2 ^ 64) ∧
    (xfs_rtpick_extent 100 10 true 5).2.1 = (if true then 5 else 0) + 1 ∧
    (xfs_rtpick_extent 100 10 true 5).1 + 10 ≤ 100 :=
  ⟨⟨by decide, by decide, by norm_num [Nat.log2]⟩,
    (C8_rtpick_extent 100 10 true 5 (by decide) (by decide) (by norm_num [Nat.log2])).1,
    (C8_rtpick_extent 100 10 true 5 (by decide) (by decide)
      (by norm_num [Nat.log2])).2.2.2.2⟩

/-- Error values returned by the grow path. -/
inductive GrowErr where
  | EPERM
  | EINVAL
  | EWOULDBLOCK
  | EOTHER (code : Nat)
deriving DecidableEq, Repr

/-- The mount state seen by the grow entry point: the two superblock
fields its early checks read directly, and an opaque payload standing
for the bitmap, the summary, the remaining superblock fields and the
hint array, which are touched only by the later grow stages. -/
structure GrowSt (σ : Type) where
  rblocks : Nat
  rextsize : Nat
  payload : σ

/-- Translation of the entry checks of xfs_growfs_rt: privilege, realtime
mount, grow lock, the shrink check against the current rblocks, and the
extent size match.  The stages after these checks, from the extent size
range check on, read external state and run transactions; they are the
doGrow argument, which produces the updated mount state on success.
Every early exit returns the state unchanged. -/
def xfs_growfs_rt {σ : Type} (doGrow : GrowSt σ → Nat → Nat → Except GrowErr (GrowSt σ))
    (capable realtime lockok : Bool) (st : GrowSt σ) (newblocks extsize : Nat) :
    Except GrowErr Unit × GrowSt σ :=
  if ¬capable then (.error .EPERM, st)
  else if ¬realtime then (.error .EINVAL, st)
  else if ¬lockok then (.error .EWOULDBLOCK, st)
  else if newblocks ≤ st.rblocks then (.error .EINVAL, st)
  else if 0 < st.rblocks ∧ extsize ≠ st.rextsize then (.error .EINVAL, st)
  else
    match doGrow st newblocks extsize with
    | .ok st2 => (.ok (), st2)
    | .error e => (.error e, st)

/-- Claim C9: xfs_growfs_rt rejects with EINVAL not only a request whose
newblocks is strictly smaller than the current rblocks but also one
exactly equal to it; the no-op grow to the current size fails for every
possible continuation of the later grow stages, before any of them
runs, leaving the mount state, and with it bitmap, summary, superblock
and hint array, unchanged. -/
theorem C9_growfs_rt_no_op {σ : Type}
    (doGrow : GrowSt σ → Nat → Nat → Except GrowErr (GrowSt σ))
    (st : GrowSt σ) (newblocks extsize : Nat) (heq : newblocks = st.rblocks) :
    xfs_growfs_rt doGrow true true true st newblocks extsize =
      (.error .EINVAL, st) := by
  unfold xfs_growfs_rt
  rw [if_neg (by simp), if_neg (by simp), if_neg (by simp),
    if_pos (Nat.le_of_eq heq)]

/-- Witness for C9 at a concrete input: a grow request to exactly the
current 5 rblocks, with a continuation that would otherwise succeed. -/
theorem C9_growfs_rt_no_op_witness :
    (5 : Nat) = (GrowSt.mk 5 1 (0 : Nat)).rblocks ∧
    xfs_growfs_rt (fun s _ _ => .ok s) true true true (GrowSt.mk 5 1 (0 : Nat)) 5 1 =
      (.error .EINVAL, GrowSt.mk 5 1 (0 : Nat)) :=
  ⟨rfl, C9_growfs_rt_no_op (fun s _ _ => .ok s) (GrowSt.mk 5 1 (0 : Nat)) 5 1 rfl⟩

/-- Translation of the maxblocks computation on the negative side of
xfs_rtallocate_extent_near: the maximum possible number of bitmap blocks
from the start of a summary-reported extent of class maxlog to its end,
with blkbitlog the log2 of the bits per bitmap block. -/
def xfs_rtallocate_extent_near_maxblocks (blkbitlog maxlog : Nat) : Nat :=
  if maxlog = 0 then 0
  else if maxlog < blkbitlog then 1
  else 2 <<< (maxlog - blkbitlog)

/-- Translation of the probe loop on the negative side of
xfs_rtallocate_extent_near: with current block offset i, previous low
bound j and block budget maxblocks, the loop probes offsets from the
smaller of i + maxblocks and j down to i, in that order.  Offsets are
relative to the bitmap block of the hint and i is negative on this
side. -/
def xfs_rtallocate_extent_near_probes (i j maxblocks : Int) : List Int :=
  let top := min (i + maxblocks) j
  (List.range (top + 1 - i).toNat).map (fun k : Nat => top - (k : Int))

/-- Counterexample to claim C6: with 4096-byte blocks, so blkbitlog 15,
and a reported class maxlog of 0, the source sets maxblocks to 0, while
the claimed formula 2 ^ max 0 (maxlog - blkbitlog + 1) gives 1 and the
claim states maxblocks = 1 for maxlog = 0 explicitly. -/
theorem C6_maxblocks_counterexample :
    xfs_rtallocate_extent_near_maxblocks 15 0 = 0 ∧
    2 ^ (((0 : Int) - 15 + 1).toNat) = 1 ∧
    xfs_rtallocate_extent_near_maxblocks 15 0 ≠ 2 ^ (((0 : Int) - 15 + 1).toNat) := by
  refine ⟨rfl, rfl, ?_⟩
  decide

/-- Claim C6 amended: when probing the negative side of the hint with
summary-reported class maxlog, the number of extra bitmap blocks
considered is 2 ^ max 0 (maxlog - blkbitlog + 1) for every maxlog of at
least 1, in particular 1 for every such maxlog below blkbitlog, while
for maxlog = 0 it is 0; and the offsets probed with prior low bound j
are exactly those between i and the smaller of i + maxblocks and j, so
any block already covered by a prior negative-side probe is skipped. -/
theorem C6_near_negative_probes (blkbitlog maxlog : Nat) (hm : 1 ≤ maxlog) :
    xfs_rtallocate_extent_near_maxblocks blkbitlog maxlog =
      2 ^ (((maxlog : Int) - blkbitlog + 1).toNat) ∧
    xfs_rtallocate_extent_near_maxblocks blkbitlog 0 = 0 ∧
    (∀ i j maxblocks k : Int,
      k ∈ xfs_rtallocate_extent_near_probes i j maxblocks ↔
        (i ≤ k ∧ k ≤ i + maxblocks ∧ k ≤ j)) := by
  refine ⟨?_, rfl, ?_⟩
  · unfold xfs_rtallocate_extent_near_maxblocks
    rw [if_neg (by omega)]
    rcases Nat.lt_or_ge maxlog blkbitlog with hlt | hge
    · rw [if_pos hlt]
      have hneg : ((maxlog : Int) - blkbitlog + 1).toNat = 0 := by omega
      rw [hneg]
      norm_num
    · rw [if_neg (by omega)]
      have hpos : ((maxlog : Int) - blkbitlog + 1).toNat = maxlog - blkbitlog + 1 := by
        omega
      rw [hpos, Nat.shiftLeft_eq, Nat.pow_succ]
      ring
  · intro i j maxblocks k
    simp only [xfs_rtallocate_extent_near_probes, List.mem_map, List.mem_range]
    constructor
    · rintro ⟨t, ht, rfl⟩
      rcases le_total (i + maxblocks) j with hc | hc
      · rw [min_eq_left hc] at ht ⊢
        omega
      · rw [min_eq_right hc] at ht ⊢
        omega
    · rintro ⟨h1, h2, h3⟩
      rcases le_total (i + maxblocks) j with hc | hc
      · refine ⟨(min (i + maxblocks) j - k).toNat, ?_, ?_⟩ <;>
          rw [min_eq_left hc] <;> omega
      · refine ⟨(min (i + maxblocks) j - k).toNat, ?_, ?_⟩ <;>
          rw [min_eq_right hc] <;> omega

/-- Witness for the amended C6 at a concrete input: blkbitlog 15 and
maxlog 3. -/
theorem C6_near_negative_probes_witness :
    (1 : Nat) ≤ 3 ∧
    xfs_rtallocate_extent_near_maxblocks 15 3 =
      2 ^ (((3 : Int) - 15 + 1).toNat) :=
  ⟨by decide, (C6_near_negative_probes 15 3 (by decide)).1⟩

/-- Translation of the scan loop of xfs_rtany_summary, as a structural
recursion on the number of classes left to scan.  With n classes left
the current class is low + n - 1; the scan runs downward and returns the
first class with a nonzero count, or low - 1 when every scanned class is
zero, matching the final value of the loop counter in the source. -/
def rtanySummaryScan (summary : Nat → Nat → Int) (bbno low : Nat) : Nat → Int
  | 0 => (low : Int) - 1
  | n + 1 =>
      if summary (low + n) bbno ≠ 0 then ((low + n : Nat) : Int)
      else rtanySummaryScan summary bbno low n

/-- Translation of xfs_rtany_summary over the summary state and the
in-memory rsum cache, with the cache present.  The cache clamp comes
first, with an early return leaving the cache untouched when the clamped
range is empty; otherwise the scan runs downward and on the way out the
cache entry is tightened to one past the last class inspected, which is
the found class on success and low - 1 on a failed scan.  Returns maxlog
and the updated cache. -/
def xfs_rtany_summary (summary : Nat → Nat → Int) (cache : Nat → Nat)
    (low high : Nat) (bbno : Nat) : Int × (Nat → Nat) :=
  let high2 : Int := min (high : Int) ((cache bbno : Int) - 1)
  if (low : Int) > high2 then (-1, cache)
  else
    let logEnd := rtanySummaryScan summary bbno low (high2 + 1 - low).toNat
    let maxlog := if logEnd < (low : Int) then -1 else logEnd
    let cache2 := if logEnd + 1 < (cache bbno : Int) then
        (fun b => if b = bbno then (logEnd + 1).toNat else cache b)
      else cache
    (maxlog, cache2)

/-- A scan over classes that are all zero ends with low - 1. -/
lemma rtanySummaryScan_zero (summary : Nat → Nat → Int) (bbno low : Nat) (n : Nat)
    (hall : ∀ k, k < n → summary (low + k) bbno = 0) :
    rtanySummaryScan summary bbno low n = (low : Int) - 1 := by
  induction n with
  | zero => rfl
  | succ m ih =>
      simp only [rtanySummaryScan]
      rw [if_neg (not_not_intro (hall m (by omega)))]
      exact ih (fun k hk => hall k (by omega))

/-- A scan whose highest nonzero class is low + k returns low + k. -/
lemma rtanySummaryScan_found (summary : Nat → Nat → Int) (bbno low : Nat) (n k : Nat)
    (hk : k < n) (hnz : summary (low + k) bbno ≠ 0)
    (habove : ∀ m, k < m → m < n → summary (low + m) bbno = 0) :
    rtanySummaryScan summary bbno low n = ((low + k : Nat) : Int) := by
  induction n with
  | zero => omega
  | succ m ih =>
      simp only [rtanySummaryScan]
      rcases Nat.lt_or_ge k m with hlt | hge
      · rw [if_neg (not_not_intro (habove m (by omega) (by omega)))]
        exact ih (by omega) (fun t ht1 ht2 => habove t ht1 (by omega))
      · have hkm : k = m := by omega
        subst hkm
        rw [if_pos hnz]

/-- Counterexample to claim C5: with every summary counter zero, hint 5 on
block 0, lo = 1 and hi = 3, the scan finds nothing and the source
tightens the hint to the low bound 1 of the scanned range, not to
found_L + 1 = 0 as the claim states for a fully empty scan. -/
theorem C5_any_summary_counterexample :
    (xfs_rtany_summary (fun _ _ => 0) (fun _ => 5) 1 3 0).1 = -1 ∧
    (xfs_rtany_summary (fun _ _ => 0) (fun _ => 5) 1 3 0).2 0 = 1 ∧
    (xfs_rtany_summary (fun _ _ => 0) (fun _ => 5) 1 3 0).2 0 ≠ 0 := by
  refine ⟨by decide, by decide, by decide⟩

/-- Claim C5 amended: xfs_rtany_summary scans summary classes downward
from min(hi, hint - 1) on block B to lo and returns the first class with
a nonzero counter, or -1 when all scanned classes are zero.  On success
it lowers the hint of B to found_L + 1 when that is smaller than the
current hint; on an all-zero scan it lowers the hint to lo when that is
smaller; and when the clamped range is empty it returns -1 and leaves
the hint alone.  Hints of other blocks are never touched. -/
theorem C5_any_summary (summary : Nat → Nat → Int) (cache : Nat → Nat)
    (low high bbno : Nat) :
    ((low : Int) > min (high : Int) ((cache bbno : Int) - 1) →
      xfs_rtany_summary summary cache low high bbno = (-1, cache)) ∧
    ((low : Int) ≤ min (high : Int) ((cache bbno : Int) - 1) →
      ((∀ L : Nat, low ≤ L → (L : Int) ≤ min (high : Int) ((cache bbno : Int) - 1) →
          summary L bbno = 0) →
        (xfs_rtany_summary summary cache low high bbno).1 = -1 ∧
        (xfs_rtany_summary summary cache low high bbno).2 bbno =
          min (cache bbno) low ∧
        (∀ b, b ≠ bbno → (xfs_rtany_summary summary cache low high bbno).2 b =
          cache b)) ∧
      (∀ L : Nat, low ≤ L → (L : Int) ≤ min (high : Int) ((cache bbno : Int) - 1) →
        summary L bbno ≠ 0 →
        (∀ K : Nat, L < K → (K : Int) ≤ min (high : Int) ((cache bbno : Int) - 1) →
          summary K bbno = 0) →
        (xfs_rtany_summary summary cache low high bbno).1 = L ∧
        (xfs_rtany_summary summary cache low high bbno).2 bbno =
          min (cache bbno) (L + 1) ∧
        (∀ b, b ≠ bbno → (xfs_rtany_summary summary cache low high bbno).2 b =
          cache b))) := by
  constructor
  · intro hgt
    unfold xfs_rtany_summary
    rw [if_pos hgt]
  · intro hle
    constructor
    · intro hall
      have hcnt : ∀ k, k < (min (high : Int) ((cache bbno : Int) - 1) + 1 - low).toNat →
          summary (low + k) bbno = 0 := by
        intro k hk
        exact hall (low + k) (by omega) (by omega)
      have hscan := rtanySummaryScan_zero summary bbno low _ hcnt
      unfold xfs_rtany_summary
      rw [if_neg (by omega)]
      simp only [hscan]
      rw [if_pos (by omega)]
      have hcc : ((low : Int) - 1 + 1).toNat = low := by omega
      refine ⟨rfl, ?_, ?_⟩
      · show (if (low : Int) - 1 + 1 < (cache bbno : Int) then
            (fun b => if b = bbno then ((low : Int) - 1 + 1).toNat else cache b)
          else cache) bbno = min (cache bbno) low
        by_cases hlc : (low : Int) - 1 + 1 < (cache bbno : Int)
        · rw [if_pos hlc]
          show (if bbno = bbno then ((low : Int) - 1 + 1).toNat else cache bbno) =
            min (cache bbno) low
          rw [if_pos rfl]
          omega
        · rw [if_neg hlc]
          omega
      · intro b hb
        show (if (low : Int) - 1 + 1 < (cache bbno : Int) then
            (fun b2 => if b2 = bbno then ((low : Int) - 1 + 1).toNat else cache b2)
          else cache) b = cache b
        by_cases hlc : (low : Int) - 1 + 1 < (cache bbno : Int)
        · rw [if_pos hlc]
          simp only [if_neg hb]
        · rw [if_neg hlc]
    · intro L hL1 hL2 hnz habove
      have hkn : L - low < (min (high : Int) ((cache bbno : Int) - 1) + 1 - low).toNat := by
        omega
      have hnz2 : summary (low + (L - low)) bbno ≠ 0 := by
        have harg : low + (L - low) = L := by omega
        rwa [harg]
      have hab2 : ∀ m, L - low < m →
          m < (min (high : Int) ((cache bbno : Int) - 1) + 1 - low).toNat →
          summary (low + m) bbno = 0 := by
        intro m hm1 hm2
        exact habove (low + m) (by omega) (by omega)
      have hscan := rtanySummaryScan_found summary bbno low _ (L - low) hkn hnz2 hab2
      have harg : low + (L - low) = L := by omega
      rw [harg] at hscan
      unfold xfs_rtany_summary
      rw [if_neg (by omega)]
      simp only [hscan]
      rw [if_neg (by omega)]
      refine ⟨rfl, ?_, ?_⟩
      · show (if (L : Int) + 1 < (cache bbno : Int) then
            (fun b => if b = bbno then ((L : Int) + 1).toNat else cache b)
          else cache) bbno = min (cache bbno) (L + 1)
        by_cases hlc : (L : Int) + 1 < (cache bbno : Int)
        · rw [if_pos hlc]
          show (if bbno = bbno then ((L : Int) + 1).toNat else cache bbno) =
            min (cache bbno) (L + 1)
          rw [if_pos rfl]
          omega
        · rw [if_neg hlc]
          omega
      · intro b hb
        show (if (L : Int) + 1 < (cache bbno : Int) then
            (fun b2 => if b2 = bbno then ((L : Int) + 1).toNat else cache b2)
          else cache) b = cache b
        by_cases hlc : (L : Int) + 1 < (cache bbno : Int)
        · rw [if_pos hlc]
          simp only [if_neg hb]
        · rw [if_neg hlc]

/-- Witness for the amended C5 at a concrete input: lo = 1, hi = 3, hint 5
on block 0, and a single nonzero counter at class 2. -/
theorem C5_any_summary_witness :
    ((1 : Int) ≤ min (3 : Int) ((5 : Int) - 1) ∧
      (1 : Nat) ≤ 2 ∧ ((2 : Nat) : Int) ≤ min (3 : Int) ((5 : Int) - 1) ∧
      (fun l _ => if l = 2 then (1 : Int) else 0) 2 0 ≠ 0) ∧
    ((xfs_rtany_summary (fun l _ => if l = 2 then (1 : Int) else 0)
        (fun _ => 5) 1 3 0).1 = 2 ∧
      (xfs_rtany_summary (fun l _ => if l = 2 then (1 : Int) else 0)
        (fun _ => 5) 1 3 0).2 0 = min 5 (2 + 1)) := by
  have habove : ∀ K : Nat, 2 < K → (K : Int) ≤ min (3 : Int) ((5 : Int) - 1) →
      (fun l _ => if l = 2 then (1 : Int) else 0) K 0 = 0 := by
    intro K h1 h2
    show (if K = 2 then (1 : Int) else 0) = 0
    rw [if_neg (by omega)]
  have hmain := (((C5_any_summary (fun l _ => if l = 2 then (1 : Int) else 0)
      (fun _ => 5) 1 3 0).2 (by decide)).2) 2 (by decide) (by decide) (by decide)
      habove
  exact ⟨⟨by decide, by decide, by decide, by decide⟩, hmain.1, hmain.2.1⟩

/-- One summary modify performed by xfs_rtcopy_summary: on the old or the
new geometry, at a level and bitmap block, with a signed delta. -/
structure CopyCall where
  isNew : Bool
  lvl : Nat
  bbno : Nat
  delta : Int
deriving DecidableEq, Repr

/-- Translation of the inner loop of xfs_rtcopy_summary over bitmap
blocks, downward from b - 1 to 0, at level lvl.  The summary codec is
external: getv gives the value returned by the get on each cell, and the
three fail oracles say whether the get or one of the two modifies fails
at that cell.  Returns whether an error occurred and the accumulated
list of modifies performed, in order. -/
def rtcopySummaryInner (failGet failModOld failModNew : Nat → Nat → Bool)
    (getv : Nat → Nat → Int) (lvl : Nat) :
    Nat → List CopyCall → Bool × List CopyCall
  | 0, acc => (false, acc)
  | b + 1, acc =>
      if failGet lvl b then (true, acc)
      else if getv lvl b = 0 then
        rtcopySummaryInner failGet failModOld failModNew getv lvl b acc
      else if failModOld lvl b then (true, acc)
      else if failModNew lvl b then
        (true, acc ++ [CopyCall.mk false lvl b (-(getv lvl b))])
      else
        rtcopySummaryInner failGet failModOld failModNew getv lvl b
          (acc ++ [CopyCall.mk false lvl b (-(getv lvl b)),
                   CopyCall.mk true lvl b (getv lvl b)])

/-- Translation of the outer loop of xfs_rtcopy_summary over levels,
downward from lcnt - 1 to 0, stopping at the first error. -/
def rtcopySummaryOuter (failGet failModOld failModNew : Nat → Nat → Bool)
    (getv : Nat → Nat → Int) (rbmblocks : Nat) :
    Nat → List CopyCall → Bool × List CopyCall
  | 0, acc => (false, acc)
  | l + 1, acc =>
      let r := rtcopySummaryInner failGet failModOld failModNew getv l rbmblocks acc
      if r.1 then r
      else rtcopySummaryOuter failGet failModOld failModNew getv rbmblocks l r.2

/-- Translation of xfs_rtcopy_summary: iterate levels and bitmap blocks
downward and for every cell with a nonzero count subtract the count from
the old geometry before adding it to the new geometry.  On any failure
of a get or a modify the source jumps to its out label, but that label
returns 0 unconditionally, so the returned code is 0 on every path;
only the list of performed modifies reflects how far it got. -/
def xfs_rtcopy_summary (failGet failModOld failModNew : Nat → Nat → Bool)
    (getv : Nat → Nat → Int) (rsumlevels rbmblocks : Nat) : Int × List CopyCall :=
  (0, (rtcopySummaryOuter failGet failModOld failModNew getv rbmblocks rsumlevels []).2)

/-- The spec description of the modifies performed by copy-summary on its
error-free path: levels descending, blocks descending, and for every
cell with a nonzero count first the subtraction on the old geometry,
then the addition on the new geometry. -/
def copySummarySpecTrace (getv : Nat → Nat → Int) (rsumlevels rbmblocks : Nat) :
    List CopyCall :=
  ((List.range rsumlevels).reverse).flatMap (fun l =>
    ((List.range rbmblocks).reverse).flatMap (fun b =>
      if getv l b = 0 then []
      else [CopyCall.mk false l b (-(getv l b)), CopyCall.mk true l b (getv l b)]))

/-- On an error-free run the inner loop performs exactly the modifies of
one level of the spec trace, appended to its accumulator. -/
lemma rtcopySummaryInner_ok (failGet failModOld failModNew : Nat → Nat → Bool)
    (getv : Nat → Nat → Int) (lvl : Nat)
    (hok : ∀ l b, failGet l b = false ∧ failModOld l b = false ∧ failModNew l b = false) :
    ∀ b acc, rtcopySummaryInner failGet failModOld failModNew getv lvl b acc =
      (false, acc ++ ((List.range b).reverse).flatMap (fun bb =>
        if getv lvl bb = 0 then []
        else [CopyCall.mk false lvl bb (-(getv lvl bb)),
              CopyCall.mk true lvl bb (getv lvl bb)])) := by
  intro b
  induction b with
  | zero => intro acc; simp [rtcopySummaryInner]
  | succ m ih =>
      intro acc
      have hfg : failGet lvl m = false := (hok lvl m).1
      have hfo : failModOld lvl m = false := (hok lvl m).2.1
      have hfn : failModNew lvl m = false := (hok lvl m).2.2
      by_cases hz : getv lvl m = 0
      · have hstep : rtcopySummaryInner failGet failModOld failModNew getv lvl (m + 1) acc =
            rtcopySummaryInner failGet failModOld failModNew getv lvl m acc := by
          simp [rtcopySummaryInner, hfg, hz]
        rw [hstep, ih acc]
        simp [List.range_succ, hz]
      · have hstep : rtcopySummaryInner failGet failModOld failModNew getv lvl (m + 1) acc =
            rtcopySummaryInner failGet failModOld failModNew getv lvl m
              (acc ++ [CopyCall.mk false lvl m (-(getv lvl m)),
                       CopyCall.mk true lvl m (getv lvl m)]) := by
          simp [rtcopySummaryInner, hfg, hfo, hfn, hz]
        rw [hstep, ih _]
        simp [List.range_succ, hz]

/-- On an error-free run the outer loop performs exactly the modifies of
the spec trace for its levels, appended to its accumulator. -/
lemma rtcopySummaryOuter_ok (failGet failModOld failModNew : Nat → Nat → Bool)
    (getv : Nat → Nat → Int) (rbmblocks : Nat)
    (hok : ∀ l b, failGet l b = false ∧ failModOld l b = false ∧ failModNew l b = false) :
    ∀ lcnt acc, rtcopySummaryOuter failGet failModOld failModNew getv rbmblocks lcnt acc =
      (false, acc ++ ((List.range lcnt).reverse).flatMap (fun l =>
        ((List.range rbmblocks).reverse).flatMap (fun bb =>
          if getv l bb = 0 then []
          else [CopyCall.mk false l bb (-(getv l bb)),
                CopyCall.mk true l bb (getv l bb)]))) := by
  intro lcnt
  induction lcnt with
  | zero => intro acc; simp [rtcopySummaryOuter]
  | succ m ih =>
      intro acc
      simp only [rtcopySummaryOuter,
        rtcopySummaryInner_ok failGet failModOld failModNew getv m hok rbmblocks acc]
      rw [ih]
      simp [List.range_succ, List.append_assoc]

/-- Claim C7: xfs_rtcopy_summary returns success 0 unconditionally, for
every failure pattern of the underlying summary gets and modifies, even
when one fails partway through; and on the error-free path it iterates
levels descending and bitmap blocks descending, and for every cell with
a nonzero count subtracts the count from the old geometry before adding
it to the same cell of the new geometry. -/
theorem C7_rtcopy_summary (failGet failModOld failModNew : Nat → Nat → Bool)
    (getv : Nat → Nat → Int) (rsumlevels rbmblocks : Nat) :
    (xfs_rtcopy_summary failGet failModOld failModNew getv rsumlevels rbmblocks).1 = 0 ∧
    ((∀ l b, failGet l b = false ∧ failModOld l b = false ∧ failModNew l b = false) →
      (xfs_rtcopy_summary failGet failModOld failModNew getv rsumlevels rbmblocks).2 =
        copySummarySpecTrace getv rsumlevels rbmblocks) := by
  refine ⟨rfl, ?_⟩
  intro hok
  unfold xfs_rtcopy_summary
  rw [rtcopySummaryOuter_ok failGet failModOld failModNew getv rbmblocks hok rsumlevels []]
  simp [copySummarySpecTrace]

/-- Witness for C7 at a concrete input: two levels and two bitmap blocks
with no failures and counts given by a small table. -/
theorem C7_rtcopy_summary_witness :
    (∀ l b : Nat, (fun (_ _ : Nat) => false) l b = false ∧
      (fun (_ _ : Nat) => false) l b = false ∧
      (fun (_ _ : Nat) => false) l b = false) ∧
    (xfs_rtcopy_summary (fun (_ _ : Nat) => false) (fun (_ _ : Nat) => false)
        (fun (_ _ : Nat) => false)
        (fun l b => if l = 0 ∧ b = 1 then 3 else 0) 2 2).2 =
      copySummarySpecTrace (fun l b => if l = 0 ∧ b = 1 then 3 else 0) 2 2 :=
  ⟨fun l b => ⟨rfl, rfl, rfl⟩,
    (C7_rtcopy_summary (fun (_ _ : Nat) => false) (fun (_ _ : Nat) => false)
      (fun (_ _ : Nat) => false)
      (fun l b => if l = 0 ∧ b = 1 then 3 else 0) 2 2).2
      (fun l b => ⟨rfl, rfl, rfl⟩)⟩

/-- Events recorded by the allocator dispatch: the near-hint search, the
release of the per-operation buffer cache, the size-first search and the
range update. -/
inductive AllocEvt where
  | near
  | relse
  | size
  | range
deriving DecidableEq, Repr

/-- Translation of the strategy dispatch and error policy of
xfs_rtallocate.  The two searches and the range update are the complex
subroutines modelled elsewhere in this file; here their outcomes are
parameters, so the claim theorem quantifies over every behaviour they
can have.  start is the computed start rtx, zero when neither a block
hint nor an initial-user-data pick produced one.  Returns the result and
the ordered list of calls made, with the buffer cache release recorded
between a failed near search and the size search.  As in the source,
only the error code is consulted after the near search, so even a
successful near search falls through to the size search; the C4 claim
does not speak about that path. -/
def xfs_rtallocate_flow (start : Nat)
    (nearRes : Except AllocErr (Nat × Nat))
    (sizeRes : Except AllocErr (Nat × Nat))
    (rangeErr : Nat → Nat → Option AllocErr) :
    Except AllocErr (Nat × Nat) × List AllocEvt :=
  let s1 : Option AllocErr × List AllocEvt :=
    if start ≠ 0 then
      match nearRes with
      | .ok _ => (none, [.near])
      | .error .ENOSPC => (none, [.near, .relse])
      | .error e => (some e, [.near])
    else (none, [])
  match s1 with
  | (some e, evts) => (.error e, evts)
  | (none, evts) =>
      match sizeRes with
      | .error e => (.error e, evts ++ [.size])
      | .ok v =>
          match rangeErr v.1 v.2 with
          | some e => (.error e, evts ++ [.size, .range])
          | none => (.ok v, evts ++ [.size, .range])

/-- The NULLFSBLOCK sentinel stored in the block number field together
with a zero length when the allocator finds no space. -/
def NULLFSBLOCK : Nat := 2 ^ 64 - 1

/-- Translation of the retry and error policy of xfs_bmap_rtalloc.  The
alignment computation and the whole allocation attempt are abstracted:
attempt gives the outcome of xfs_rtallocate for a given noalign flag,
and noalign0 is the flag value after the first alignment call, which
sets it when the extent size hint equals the rt extent size.  On ENOSPC
with alignment criteria still active the source resets the request and
retries once with noalign set; a second ENOSPC, or an ENOSPC with
noalign already set, is surfaced as a successful return carrying
NULLFSBLOCK and zero length. -/
def xfs_bmap_rtalloc_flow (attempt : Bool → Except AllocErr (Nat × Nat))
    (noalign0 : Bool) : Except AllocErr (Nat × Nat) :=
  match attempt noalign0 with
  | .ok v => .ok v
  | .error .ENOSPC =>
      if noalign0 then .ok (NULLFSBLOCK, 0)
      else
        match attempt true with
        | .ok v => .ok v
        | .error .ENOSPC => .ok (NULLFSBLOCK, 0)
        | .error e => .error e
  | .error e => .error e

/-- Claim C4: in xfs_rtallocate, when a nonzero start position was
computed, an ENOSPC failure of the near-hint search is swallowed: the
per-operation buffer cache is released and the size-first search is
tried instead, and an ENOSPC from the size-first search propagates to
the caller; at the public interface, after one retry without alignment
criteria, ENOSPC surfaces as a successful return carrying zero length,
while other errors are returned as errors. -/
theorem C4_alloc_error_flow (start : Nat)
    (sizeRes : Except AllocErr (Nat × Nat))
    (rangeErr : Nat → Nat → Option AllocErr)
    (attempt : Bool → Except AllocErr (Nat × Nat)) :
    (start ≠ 0 →
      (xfs_rtallocate_flow start (.error .ENOSPC) sizeRes rangeErr).2 =
        [.near, .relse, .size] ++
          (match sizeRes with
           | .ok _ => [AllocEvt.range]
           | .error _ => ([] : List AllocEvt)) ∧
      (xfs_rtallocate_flow start (.error .ENOSPC) (.error .ENOSPC) rangeErr).1 =
        .error .ENOSPC) ∧
    (attempt false = .error .ENOSPC → attempt true = .error .ENOSPC →
      xfs_bmap_rtalloc_flow attempt false = .ok (NULLFSBLOCK, 0)) ∧
    (∀ e, e ≠ .ENOSPC → attempt false = .error e →
      xfs_bmap_rtalloc_flow attempt false = .error e) ∧
    (∀ e, e ≠ .ENOSPC → attempt false = .error .ENOSPC → attempt true = .error e →
      xfs_bmap_rtalloc_flow attempt false = .error e) := by
  refine ⟨?_, ?_, ?_, ?_⟩
  · intro hs
    constructor
    · cases sizeRes with
      | error e => simp [xfs_rtallocate_flow, if_pos hs]
      | ok v =>
          rcases hre : rangeErr v.1 v.2 with _ | e <;>
            simp [xfs_rtallocate_flow, if_pos hs, hre]
    · simp [xfs_rtallocate_flow, if_pos hs]
  · intro h1 h2
    simp [xfs_bmap_rtalloc_flow, h1, h2]
  · intro e he h1
    cases e with
    | ENOSPC => exact absurd rfl he
    | EOTHER c => simp [xfs_bmap_rtalloc_flow, h1]
  · intro e he h1 h2
    cases e with
    | ENOSPC => exact absurd rfl he
    | EOTHER c => simp [xfs_bmap_rtalloc_flow, h1, h2]

/-- Witness for C4 at a concrete input: start 7, a size-first search and a
second attempt that both report ENOSPC, and a first attempt failing with
an I/O style error for the last part. -/
theorem C4_alloc_error_flow_witness :
    ((7 : Nat) ≠ 0 ∧
      (xfs_rtallocate_flow 7 (.error .ENOSPC) (.error .ENOSPC)
        (fun _ _ => none)).1 = .error .ENOSPC) ∧
    ((fun _ : Bool => (Except.error AllocErr.ENOSPC : Except AllocErr (Nat × Nat)))
        false = .error .ENOSPC ∧
      xfs_bmap_rtalloc_flow
        (fun _ : Bool => (Except.error AllocErr.ENOSPC : Except AllocErr (Nat × Nat)))
        false = .ok (NULLFSBLOCK, 0)) :=
  ⟨⟨by decide,
    ((C4_alloc_error_flow 7 (.error .ENOSPC) (fun _ _ => none)
      (fun _ => .error .ENOSPC)).1 (by decide)).2⟩,
   ⟨rfl,
    (C4_alloc_error_flow 7 (.error .ENOSPC) (fun _ _ => none)
      (fun _ => .error .ENOSPC)).2.1 rfl rfl⟩⟩

/-- The result of the single-block allocator: an extent, or no space
together with the next rtx to try when one was computed.  The source
leaves the nextp output untouched on the path where not even one probe
ran, which the model renders as none. -/
inductive BlockRes where
  | found (rtx len : Nat)
  | nospace (nxt : Option Nat)
deriving DecidableEq, Repr

/-- The epilogue of xfs_rtallocate_extent_block: no best extent recorded
means no space; otherwise the best length is aligned down to the product
factor and the allocation fails when it no longer reaches minlen. -/
def rtallocExtentBlockFinish (minlen prodf : Nat) :
    Option (Nat × Nat) → Option Nat → BlockRes
  | none, nxt => .nospace nxt
  | some p, nxt =>
      let bl := xfs_rtalloc_align_len p.2 prodf
      if bl < minlen then .nospace nxt else .found p.1 bl

/-- Translation of the scan loop of xfs_rtallocate_extent_block, as a
structural recursion on the remaining number of candidate positions.
From candidate i: clamp the scan length and stop when it falls below
minlen; probe for a fully free run of the clamped length at i and take
it when present; otherwise, for a variable-sized request, remember the
free prefix when it reaches minlen and beats the best so far, stop when
the first non-free rtx is at or past the chunk end, and otherwise jump
past the allocated run to the next free rtx.  With fuel endr + 1 - i the
fuel runs out only past endr, matching the for condition of the
source. -/
def rtallocExtentBlockGo (rextents : Nat) (bmp : Nat → Bool)
    (minlen maxlen prodf endr : Nat) :
    Nat → Nat → Option (Nat × Nat) → Option Nat → BlockRes
  | 0, _, best, nxt => rtallocExtentBlockFinish minlen prodf best nxt
  | fuel + 1, i, best, nxt =>
      if endr < i then rtallocExtentBlockFinish minlen prodf best nxt
      else
        let scanlen := xfs_rtallocate_clamp_len rextents i maxlen prodf
        if scanlen < minlen then rtallocExtentBlockFinish minlen prodf best nxt
        else
          let nf := xfs_rtcheck_range bmp i scanlen true
          if nf.2 then .found i scanlen
          else
            let best2 := if minlen < maxlen ∧ minlen ≤ nf.1 - i ∧
                (match best with | some p => p.2 | none => 0) < nf.1 - i then
                some (i, nf.1 - i)
              else best
            if endr ≤ nf.1 then rtallocExtentBlockFinish minlen prodf best2 (some nf.1)
            else
              rtallocExtentBlockGo rextents bmp minlen maxlen prodf endr
                fuel (xfs_rtfind_forw bmp nf.1 endr + 1) best2 (some nf.1)

/-- Translation of xfs_rtallocate_extent_block: scan the free runs
starting in bitmap block bbno, from its first rtx to its last one,
capped at the end of the rt volume. -/
def xfs_rtallocate_extent_block (rextents blkbitlog : Nat) (bmp : Nat → Bool)
    (bbno minlen maxlen prodf : Nat) : BlockRes :=
  let endr := min rextents (rbmblockToRtx blkbitlog (bbno + 1)) - 1
  let i0 := rbmblockToRtx blkbitlog bbno
  rtallocExtentBlockGo rextents bmp minlen maxlen prodf endr (endr + 1 - i0) i0 none none

/-- Translation of the block loop of xfs_rtalloc_sumlevel, as a
structural recursion on the remaining number of bitmap blocks.  Blocks
whose summary cell at level l is zero are skipped without probing;
otherwise the single-block allocator runs, and on no space the loop
fast-forwards to the bitmap block of the returned next rtx when that
lies past the next bitmap block.  The fuel bounds the iterations; with
fuel rbmblocks it runs out only at or past rbmblocks, since the index
grows by at least one per step. -/
def rtallocSumlevelGo (rextents blkbitlog rbmblocks : Nat) (st : RtSt)
    (l minlen maxlen prodf : Nat) : Nat → Nat → Except AllocErr (Nat × Nat)
  | 0, _ => .error .ENOSPC
  | fuel + 1, i =>
      if rbmblocks ≤ i then .error .ENOSPC
      else if st.summary l i = 0 then
        rtallocSumlevelGo rextents blkbitlog rbmblocks st l minlen maxlen prodf fuel (i + 1)
      else
        match xfs_rtallocate_extent_block rextents blkbitlog st.bmp i minlen maxlen prodf with
        | .found rtx len => .ok (rtx, len)
        | .nospace nxt =>
            let i2 := match nxt with
              | some n => if i + 1 < rtxToRbmblock blkbitlog n
                  then rtxToRbmblock blkbitlog n else i + 1
              | none => i + 1
            rtallocSumlevelGo rextents blkbitlog rbmblocks st l minlen maxlen prodf fuel i2

/-- Translation of xfs_rtalloc_sumlevel: scan every bitmap block at one
summary level. -/
def xfs_rtalloc_sumlevel (rextents blkbitlog rbmblocks : Nat) (st : RtSt)
    (l minlen maxlen prodf : Nat) : Except AllocErr (Nat × Nat) :=
  rtallocSumlevelGo rextents blkbitlog rbmblocks st l minlen maxlen prodf rbmblocks 0

/-- Translation of the first loop of xfs_rtallocate_extent_size, over
levels l ascending while l is below rsumlevels, with fuel the number of
levels left.  Returns the result and the list of level calls made, each
recording the level and the minlen and maxlen passed down. -/
def rtallocSizeUpGo (rextents blkbitlog rbmblocks : Nat) (st : RtSt)
    (minlen maxlen prodf : Nat) :
    Nat → Nat → Except AllocErr (Nat × Nat) × List (Nat × Nat × Nat)
  | 0, _ => (.error .ENOSPC, [])
  | fuel + 1, l =>
      match xfs_rtalloc_sumlevel rextents blkbitlog rbmblocks st l minlen maxlen prodf with
      | .error .ENOSPC =>
          ((rtallocSizeUpGo rextents blkbitlog rbmblocks st minlen maxlen prodf
              fuel (l + 1)).1,
            (l, minlen, maxlen) ::
              (rtallocSizeUpGo rextents blkbitlog rbmblocks st minlen maxlen prodf
                fuel (l + 1)).2)
      | r => (r, [(l, minlen, maxlen)])

/-- Translation of the second loop of xfs_rtallocate_extent_size, over
levels descending from lowl + n down to lowl, with maxlen1 the already
decremented maxlen of the source.  At level l the call passes the
minimum max(minlen, 2 ^ l) and the maximum min(maxlen1, 2 ^ (l+1) - 1).
Returns the result and the list of level calls made. -/
def rtallocSizeDownGo (rextents blkbitlog rbmblocks : Nat) (st : RtSt)
    (lowl minlen maxlen1 prodf : Nat) :
    Nat → Except AllocErr (Nat × Nat) × List (Nat × Nat × Nat)
  | 0 =>
      (xfs_rtalloc_sumlevel rextents blkbitlog rbmblocks st lowl
        (max minlen (2 ^ lowl)) (min maxlen1 (2 ^ (lowl + 1) - 1)) prodf,
       [(lowl, max minlen (2 ^ lowl), min maxlen1 (2 ^ (lowl + 1) - 1))])
  | n + 1 =>
      match xfs_rtalloc_sumlevel rextents blkbitlog rbmblocks st (lowl + n + 1)
          (max minlen (2 ^ (lowl + n + 1)))
          (min maxlen1 (2 ^ (lowl + n + 1 + 1) - 1)) prodf with
      | .error .ENOSPC =>
          ((rtallocSizeDownGo rextents blkbitlog rbmblocks st lowl minlen maxlen1
              prodf n).1,
            (lowl + n + 1, max minlen (2 ^ (lowl + n + 1)),
              min maxlen1 (2 ^ (lowl + n + 1 + 1) - 1)) ::
              (rtallocSizeDownGo rextents blkbitlog rbmblocks st lowl minlen maxlen1
                prodf n).2)
      | r => (r, [(lowl + n + 1, max minlen (2 ^ (lowl + n + 1)),
          min maxlen1 (2 ^ (lowl + n + 1 + 1) - 1))])

/-- Translation of xfs_rtallocate_extent_size: the ascending loop from
the class of maxlen with the caller arguments, then, unless the request
is fixed size, the descending loop from the class of maxlen - 1 down to
the class of minlen with the per-class clamped arguments.  Returns the
result and the ordered list of level calls made. -/
def xfs_rtallocate_extent_size (rextents blkbitlog rbmblocks rsumlevels : Nat)
    (st : RtSt) (minlen maxlen prodf : Nat) :
    Except AllocErr (Nat × Nat) × List (Nat × Nat × Nat) :=
  let r1 := rtallocSizeUpGo rextents blkbitlog rbmblocks st minlen maxlen prodf
      (rsumlevels - log2floor maxlen) (log2floor maxlen)
  match r1.1 with
  | .error .ENOSPC =>
      if maxlen - 1 < minlen then (.error .ENOSPC, r1.2)
      else
        let r2 := rtallocSizeDownGo rextents blkbitlog rbmblocks st
            (log2floor minlen) minlen (maxlen - 1) prodf
            (log2floor (maxlen - 1) - log2floor minlen)
        (r2.1, r1.2 ++ r2.2)
  | r => (r, r1.2)

/-- A first-success run of a list of sumlevel calls, each a level with
the minlen and maxlen to pass: try them in order, stopping at the first
result that is not ENOSPC; the second component is the list of calls
made. -/
def runSumCalls (rextents blkbitlog rbmblocks : Nat) (st : RtSt) (prodf : Nat) :
    List (Nat × Nat × Nat) → Except AllocErr (Nat × Nat) × List (Nat × Nat × Nat)
  | [] => (.error .ENOSPC, [])
  | c :: rest =>
      match xfs_rtalloc_sumlevel rextents blkbitlog rbmblocks st c.1 c.2.1 c.2.2 prodf with
      | .error .ENOSPC =>
          ((runSumCalls rextents blkbitlog rbmblocks st prodf rest).1,
            c :: (runSumCalls rextents blkbitlog rbmblocks st prodf rest).2)
      | r => (r, [c])

/-- The level calls of size-first allocation as the claim states them:
classes from the class of maxlen up to rsumlevels - 1 with the caller
arguments, then, when minlen allows smaller extents, classes from the
class of maxlen - 1 down to the class of minlen, passing the minimum
max(minlen, 2 ^ L) and the maximum min(maxlen, 2 ^ (L+1) - 1). -/
def sizeClaimCalls (rsumlevels minlen maxlen : Nat) : List (Nat × Nat × Nat) :=
  ((List.range (rsumlevels - log2floor maxlen)).map
    (fun k => (log2floor maxlen + k, minlen, maxlen))) ++
  (if minlen ≤ maxlen - 1 then
    (List.range (log2floor (maxlen - 1) - log2floor minlen + 1)).map
      (fun k => (log2floor (maxlen - 1) - k,
        max minlen (2 ^ (log2floor (maxlen - 1) - k)),
        min maxlen (2 ^ (log2floor (maxlen - 1) - k + 1) - 1)))
  else [])

/-- The level calls of size-first allocation as the source makes them:
identical to the claim except that the maximum passed in the second
phase is min(maxlen - 1, 2 ^ (L+1) - 1), with the decremented maxlen. -/
def sizeAmendedCalls (rsumlevels minlen maxlen : Nat) : List (Nat × Nat × Nat) :=
  ((List.range (rsumlevels - log2floor maxlen)).map
    (fun k => (log2floor maxlen + k, minlen, maxlen))) ++
  (if minlen ≤ maxlen - 1 then
    (List.range (log2floor (maxlen - 1) - log2floor minlen + 1)).map
      (fun k => (log2floor (maxlen - 1) - k,
        max minlen (2 ^ (log2floor (maxlen - 1) - k)),
        min (maxlen - 1) (2 ^ (log2floor (maxlen - 1) - k + 1) - 1)))
  else [])

/-- The ascending loop is the first-success run of the ascending list of
level calls. -/
lemma rtallocSizeUpGo_eq (rextents blkbitlog rbmblocks : Nat) (st : RtSt)
    (minlen maxlen prodf : Nat) :
    ∀ fuel l, rtallocSizeUpGo rextents blkbitlog rbmblocks st minlen maxlen prodf fuel l =
      runSumCalls rextents blkbitlog rbmblocks st prodf
        ((List.range fuel).map (fun k => (l + k, minlen, maxlen))) := by
  intro fuel
  induction fuel with
  | zero =>
      intro l
      simp [rtallocSizeUpGo, runSumCalls]
  | succ f ih =>
      intro l
      have hlist : (List.range (f + 1)).map (fun k => (l + k, minlen, maxlen)) =
          (l, minlen, maxlen) ::
            (List.range f).map (fun k => (l + 1 + k, minlen, maxlen)) := by
        rw [List.range_succ_eq_map, List.map_cons, List.map_map]
        refine congrArg₂ List.cons (by rw [Nat.add_zero]) ?_
        refine List.map_congr_left (fun k _ => ?_)
        show (l + (k + 1), minlen, maxlen) = (l + 1 + k, minlen, maxlen)
        rw [show l + (k + 1) = l + 1 + k from by omega]
      rw [hlist]
      simp only [rtallocSizeUpGo, runSumCalls]
      cases hres : xfs_rtalloc_sumlevel rextents blkbitlog rbmblocks st l
          minlen maxlen prodf with
      | error e =>
          cases e with
          | ENOSPC => rw [ih (l + 1)]
          | EOTHER c => rfl
      | ok v => rfl

/-- The descending loop is the first-success run of the descending list
of level calls. -/
lemma rtallocSizeDownGo_eq (rextents blkbitlog rbmblocks : Nat) (st : RtSt)
    (lowl minlen maxlen1 prodf : Nat) :
    ∀ n, rtallocSizeDownGo rextents blkbitlog rbmblocks st lowl minlen maxlen1 prodf n =
      runSumCalls rextents blkbitlog rbmblocks st prodf
        ((List.range (n + 1)).map (fun k =>
          (lowl + n - k, max minlen (2 ^ (lowl + n - k)),
           min maxlen1 (2 ^ (lowl + n - k + 1) - 1)))) := by
  intro n
  induction n with
  | zero =>
      have hlist : (List.range 1).map (fun k =>
          (lowl + 0 - k, max minlen (2 ^ (lowl + 0 - k)),
           min maxlen1 (2 ^ (lowl + 0 - k + 1) - 1))) =
          [(lowl, max minlen (2 ^ lowl), min maxlen1 (2 ^ (lowl + 1) - 1))] := by
        rw [List.range_succ, List.range_zero]
        simp
      rw [hlist]
      simp only [rtallocSizeDownGo, runSumCalls]
      cases hres : xfs_rtalloc_sumlevel rextents blkbitlog rbmblocks st lowl
          (max minlen (2 ^ lowl)) (min maxlen1 (2 ^ (lowl + 1) - 1)) prodf with
      | error e =>
          cases e with
          | ENOSPC => rfl
          | EOTHER c => rfl
      | ok v => rfl
  | succ m ih =>
      have hlist : (List.range (m + 1 + 1)).map (fun k =>
          (lowl + (m + 1) - k, max minlen (2 ^ (lowl + (m + 1) - k)),
           min maxlen1 (2 ^ (lowl + (m + 1) - k + 1) - 1))) =
          (lowl + m + 1, max minlen (2 ^ (lowl + m + 1)),
            min maxlen1 (2 ^ (lowl + m + 1 + 1) - 1)) ::
            (List.range (m + 1)).map (fun k =>
              (lowl + m - k, max minlen (2 ^ (lowl + m - k)),
               min maxlen1 (2 ^ (lowl + m - k + 1) - 1))) := by
        rw [List.range_succ_eq_map, List.map_cons, List.map_map]
        refine congrArg₂ List.cons ?_ ?_
        · rw [show lowl + (m + 1) - 0 = lowl + m + 1 from by omega]
        · refine List.map_congr_left (fun k _ => ?_)
          show (lowl + (m + 1) - (k + 1), max minlen (2 ^ (lowl + (m + 1) - (k + 1))),
            min maxlen1 (2 ^ (lowl + (m + 1) - (k + 1) + 1) - 1)) = _
          rw [show lowl + (m + 1) - (k + 1) = lowl + m - k from by omega]
      rw [hlist]
      simp only [rtallocSizeDownGo, runSumCalls]
      cases hres : xfs_rtalloc_sumlevel rextents blkbitlog rbmblocks st (lowl + m + 1)
          (max minlen (2 ^ (lowl + m + 1))) (min maxlen1 (2 ^ (lowl + m + 1 + 1) - 1))
          prodf with
      | error e =>
          cases e with
          | ENOSPC => rw [ih]
          | EOTHER c => rfl
      | ok v => rfl

/-- A first-success run of an appended list runs the second part exactly
when every call of the first part reports ENOSPC. -/
lemma runSumCalls_append (rextents blkbitlog rbmblocks : Nat) (st : RtSt) (prodf : Nat)
    (A B : List (Nat × Nat × Nat)) :
    runSumCalls rextents blkbitlog rbmblocks st prodf (A ++ B) =
      (match runSumCalls rextents blkbitlog rbmblocks st prodf A with
       | (.error .ENOSPC, tr) =>
           ((runSumCalls rextents blkbitlog rbmblocks st prodf B).1,
             tr ++ (runSumCalls rextents blkbitlog rbmblocks st prodf B).2)
       | r => r) := by
  induction A with
  | nil =>
      simp [runSumCalls]
  | cons c rest ih =>
      simp only [List.cons_append, runSumCalls]
      cases hres : xfs_rtalloc_sumlevel rextents blkbitlog rbmblocks st c.1 c.2.1 c.2.2
          prodf with
      | error e =>
          cases e with
          | ENOSPC =>
              rcases hr : runSumCalls rextents blkbitlog rbmblocks st prodf rest
                with ⟨res2, tr2⟩
              cases res2 with
              | error e2 =>
                  cases e2 with
                  | ENOSPC => simp [List.append_eq, ih, hr]
                  | EOTHER c2 => simp [List.append_eq, ih, hr]
              | ok v2 => simp [List.append_eq, ih, hr]
          | EOTHER c2 => rfl
      | ok v => rfl

/-- Counterexample to claim C3: with four summary levels, two bitmap
blocks and an all-zero summary, a request with minlen 1 and maxlen 6
makes the source pass min(maxlen - 1, 2 ^ (L+1) - 1) = 5 as the maximum
of the class-2 retry call, where the claim states min(maxlen,
2 ^ (L+1) - 1) = 6; the two call traces differ. -/
theorem C3_extent_size_counterexample :
    xfs_rtallocate_extent_size 16 3 2 4 (RtSt.mk (fun _ => false) (fun _ _ => 0))
        1 6 1 ≠
      runSumCalls 16 3 2 (RtSt.mk (fun _ => false) (fun _ _ => 0)) 1
        (sizeClaimCalls 4 1 6) ∧
    (xfs_rtallocate_extent_size 16 3 2 4 (RtSt.mk (fun _ => false) (fun _ _ => 0))
        1 6 1).2 =
      [(2, 1, 6), (3, 1, 6), (2, 4, 5), (1, 2, 3), (0, 1, 1)] ∧
    (runSumCalls 16 3 2 (RtSt.mk (fun _ => false) (fun _ _ => 0)) 1
        (sizeClaimCalls 4 1 6)).2 =
      [(2, 1, 6), (3, 1, 6), (2, 4, 6), (1, 2, 3), (0, 1, 1)] := by
  have h2 : (xfs_rtallocate_extent_size 16 3 2 4
      (RtSt.mk (fun _ => false) (fun _ _ => 0)) 1 6 1).2 =
      [(2, 1, 6), (3, 1, 6), (2, 4, 5), (1, 2, 3), (0, 1, 1)] := by decide
  have h3 : (runSumCalls 16 3 2 (RtSt.mk (fun _ => false) (fun _ _ => 0)) 1
      (sizeClaimCalls 4 1 6)).2 =
      [(2, 1, 6), (3, 1, 6), (2, 4, 6), (1, 2, 3), (0, 1, 1)] := by decide
  refine ⟨?_, h2, h3⟩
  intro heq
  rw [heq, h3] at h2
  exact absurd h2 (by decide)

/-- Claim C3 amended: size-first allocation is the first-success run of
the following level calls: classes L from the class of maxlen up to
rsumlevels - 1 with the caller minlen and maxlen, each call scanning
every bitmap block in order, probing only blocks with a nonzero summary
cell at (L, B) and fast-forwarding past blocks when the returned next
rtx lies beyond the next bitmap block; and if every such class fails and
minlen allows smaller extents, classes from the class of maxlen - 1 down
to the class of minlen, passing for each class L the minimum
max(minlen, 2 ^ L) and the maximum min(maxlen - 1, 2 ^ (L+1) - 1), with
the decremented maxlen rather than the claimed caller maxlen. -/
theorem C3_extent_size_phases (rextents blkbitlog rbmblocks rsumlevels : Nat)
    (st : RtSt) (minlen maxlen prodf : Nat) (hmin : 1 ≤ minlen)
    (hmax : minlen ≤ maxlen) :
    xfs_rtallocate_extent_size rextents blkbitlog rbmblocks rsumlevels st
        minlen maxlen prodf =
      runSumCalls rextents blkbitlog rbmblocks st prodf
        (sizeAmendedCalls rsumlevels minlen maxlen) := by
  unfold xfs_rtallocate_extent_size sizeAmendedCalls
  rw [rtallocSizeUpGo_eq, runSumCalls_append]
  rcases hr1 : runSumCalls rextents blkbitlog rbmblocks st prodf
      ((List.range (rsumlevels - log2floor maxlen)).map
        (fun k => (log2floor maxlen + k, minlen, maxlen))) with ⟨res1, tr1⟩
  cases res1 with
  | ok v => rfl
  | error e =>
      cases e with
      | EOTHER c => rfl
      | ENOSPC =>
          by_cases hfix : maxlen - 1 < minlen
          · simp [if_pos hfix, if_neg (show ¬ minlen ≤ maxlen - 1 by omega), runSumCalls]
          · have hcond : minlen ≤ maxlen - 1 := by omega
            have hmono : log2floor minlen ≤ log2floor (maxlen - 1) := by
              rw [log2floor_eq, log2floor_eq, Nat.log2_eq_log_two,
                Nat.log2_eq_log_two]
              exact Nat.log_mono_right (by omega)
            have htop : log2floor minlen +
                (log2floor (maxlen - 1) - log2floor minlen) =
                log2floor (maxlen - 1) := by omega
            have hlists : (List.range (log2floor (maxlen - 1) - log2floor minlen + 1)).map
                (fun k => (log2floor minlen +
                    (log2floor (maxlen - 1) - log2floor minlen) - k,
                  max minlen (2 ^ (log2floor minlen +
                    (log2floor (maxlen - 1) - log2floor minlen) - k)),
                  min (maxlen - 1) (2 ^ (log2floor minlen +
                    (log2floor (maxlen - 1) - log2floor minlen) - k + 1) - 1))) =
                (List.range (log2floor (maxlen - 1) - log2floor minlen + 1)).map
                (fun k => (log2floor (maxlen - 1) - k,
                  max minlen (2 ^ (log2floor (maxlen - 1) - k)),
                  min (maxlen - 1) (2 ^ (log2floor (maxlen - 1) - k + 1) - 1))) := by
              refine List.map_congr_left (fun k _ => ?_)
              rw [htop]
            rw [rtallocSizeDownGo_eq, hlists]
            simp [if_neg hfix, if_pos hcond]

/-- Witness for the amended C3 at a concrete input: the same small
geometry as the counterexample. -/
theorem C3_extent_size_phases_witness :
    ((1 : Nat) ≤ 1 ∧ (1 : Nat) ≤ 6) ∧
    xfs_rtallocate_extent_size 16 3 2 4 (RtSt.mk (fun _ => false) (fun _ _ => 0))
        1 6 1 =
      runSumCalls 16 3 2 (RtSt.mk (fun _ => false) (fun _ _ => 0)) 1
        (sizeAmendedCalls 4 1 6) :=
  ⟨⟨by decide, by decide⟩,
    C3_extent_size_phases 16 3 2 4 (RtSt.mk (fun _ => false) (fun _ _ => 0)) 1 6 1
      (by decide) (by decide)⟩

end RtAlloc
